import Mathlib

/-!
Verification development for the european-emissions-data-warehouse repository.

The definitions below are shallow embeddings of the Python source:

* `find_optimal_number_of_AZs` embeds `utils.find_optimal_number_of_AZs`
  (Python integers become `Int`, Python `//` becomes `Int.fdiv`).
* `handle_exceptions` embeds the `utils.handle_exceptions` decorator: the
  wrapper calls the wrapped body, swallows any exception, and never returns
  the body's value (Python's implicit `return None` in both branches).
* The resource-collection model (`Env`, `State`, `delete_components`,
  `delete_service`, `delete_components_with_retry`, `add_component`,
  `contains_resource`) embeds `aws_service_classes.py`: objects are named by
  natural numbers; `State` maps each object to its `components` list, while
  the static `Env` carries each object's `collections` back-reference list,
  whether it is an `AWSServiceCollection` and/or a concrete `AWSService`,
  and whether its external teardown call succeeds (`delOk`).
* `parse_command` / `command_loop` embed the interactive loop of
  `main.build_cloud_infrastructure`, and `create_lambda_function_with_retry`
  embeds `main.create_lambda_function_with_retry`.
-/

/-- Embedding of `utils.find_optimal_number_of_AZs`: Python integers are
modelled as `Int` and Python floor division `//` as `Int.fdiv`. -/
def find_optimal_number_of_AZs (num_subnets num_azs : Int) : Int :=
  if num_subnets ≥ 4 then
    min num_azs (Int.fdiv num_subnets 2)
  else
    2

/-- Zone-count heuristic as worded by the spec: return `2` when
`num_subnets < 4`, and `min(num_azs, num_subnets // 2)` otherwise. -/
def zone_count_spec (num_subnets num_azs : Int) : Int :=
  if num_subnets < 4 then 2 else min num_azs (Int.fdiv num_subnets 2)

/-- Embedding of the `utils.handle_exceptions` decorator: the wrapper calls
the body, swallows an exception if one is raised, and in either case does not
return the body's value (the wrapper has no `return`, so Python yields
`None`, modelled as `none`). -/
def handle_exceptions {α β : Type} (f : α → Except Unit β) (a : α) : Option β :=
  match f a with
  | Except.ok _ => none
  | Except.error _ => none

/-- Python truthiness of a value returned by a wrapped `delete` call:
`None` is falsy, an integer is truthy exactly when it is nonzero. -/
def isTruthy : Option Nat → Bool
  | none => false
  | some n => n != 0

/-- Python truthiness of an optional string argument (`None` and the empty
string are falsy). -/
def truthyStr : Option String → Bool
  | none => false
  | some s => s != ""

/-- Component record as seen by `AWSServiceCollection.contains_resource`:
each member carries an optional `name` and an optional `id` (both are `None`
until creation assigns them). -/
structure Comp where
  name : Option String
  id : Option String
deriving DecidableEq, Repr

/-- Loop body of `contains_resource`: return `True` on the first member
whose name matches the given name or whose id matches the given id. -/
def contains_scan (name id : Option String) : List Comp → Bool
  | [] => false
  | c :: rest =>
    if truthyStr name && name == c.name then true
    else if truthyStr id && id == c.id then true
    else contains_scan name id rest

/-- Embedding of `AWSServiceCollection.contains_resource`: raises (modelled
as `Except.error`) when neither a name nor an id is given, otherwise scans
the components list linearly. -/
def contains_resource (comps : List Comp) (name id : Option String) :
    Except String Bool :=
  if !truthyStr name && !truthyStr id then
    Except.error "You must specify either ID or name of the resource!"
  else
    Except.ok (contains_scan name id comps)

/-- Matching predicate used to state the result of the linear scan. -/
def matchesComp (name id : Option String) (c : Comp) : Bool :=
  (truthyStr name && name == c.name) || (truthyStr id && id == c.id)

theorem contains_scan_eq_any (name id : Option String) (l : List Comp) :
    contains_scan name id l = l.any (matchesComp name id) := by
  induction l with
  | nil => rfl
  | cons c rest ih =>
    simp only [contains_scan, List.any_cons, matchesComp]
    by_cases h1 : (truthyStr name && name == c.name) = true
    · simp [h1]
    · simp only [Bool.not_eq_true] at h1
      by_cases h2 : (truthyStr id && id == c.id) = true
      · simp [h1, h2]
      · simp only [Bool.not_eq_true] at h2
        simp [h1, h2, ih]

/-- Static data of the resource-graph model: objects are named by naturals.
`isColl` / `isServ` record whether an object is an `AWSServiceCollection` /
an `AWSService` (a `Subnet` or `VPC` is both); `delOk` records whether the
object's external teardown call succeeds or raises; `colls` is the object's
`collections` back-reference list, which deletion never mutates. -/
structure Env where
  isColl : Nat → Bool
  isServ : Nat → Bool
  delOk : Nat → Bool
  colls : Nat → List Nat

/-- Mutable part of the model: the `components` list of every object. -/
def CompState : Type := Nat → List Nat

/-- Overwrite one object's components list. -/
def setComp (s : CompState) (x : Nat) (l : List Nat) : CompState :=
  fun y => if y = x then l else s y

/-- One step of the removal loop in `AWSService.delete`: if `i` is a member
of collection `y`'s components, remove it (Python `list.remove` deletes the
first occurrence). -/
def removeStep (i : Nat) (st : CompState) (y : Nat) : CompState :=
  if i ∈ st y then setComp st y ((st y).erase i) else st

/-- Embedding of the loop in `AWSService.delete` that removes the deleted
service from the components list of every collection it belongs to. -/
def removeFromCollections (env : Env) (i : Nat) (s : CompState) : CompState :=
  (env.colls i).foldl (removeStep i) s

mutual

/-- Embedding of `AWSServiceCollection.delete_components`: iterates over a
snapshot (`s self`, the copy taken on entry) of the components list.
Returns the new state and the trace of successful external teardown calls
(object ids, in order). `fuel` bounds the recursion depth. -/
def delete_components (env : Env) : Nat → Nat → CompState → CompState × List Nat
  | 0, _, s => (s, [])
  | fuel + 1, self, s => delete_list env fuel self (s self) s
termination_by fuel self s => (fuel, 0)

/-- Loop body of `delete_components` over the snapshot list: recurse into a
member that is itself a collection, then (when the member is a service) call
its wrapped `delete`; the member is explicitly removed only if the wrapped
call returned a truthy value. -/
def delete_list (env : Env) : Nat → Nat → List Nat → CompState → CompState × List Nat
  | _, _, [], s => (s, [])
  | fuel, self, c :: rest, s =>
    let p1 := if env.isColl c then delete_components env fuel c s else (s, [])
    let p2 := if env.isServ c then delete_service env fuel c p1.1
              else (p1.1, none, [])
    let s3 := if isTruthy p2.2.1
              then setComp p2.1 self ((p2.1 self).erase c)
              else p2.1
    let p4 := delete_list env fuel self rest s3
    (p4.1, p1.2 ++ p2.2.2 ++ p4.2)
termination_by fuel self l s => (fuel, l.length + 1)

/-- Embedding of a concrete `delete` method wrapped by `handle_exceptions`
(e.g. `Subnet.delete`, `VPC.delete`, `S3Bucket.delete`): when the object is
also a collection its own components are deleted first; then the external
teardown call either succeeds (the flag `1` of `AWSService.delete` is
produced, and the object is removed from every collection referencing it) or
raises (the wrapper catches the exception).  In both cases the wrapper
discards the flag and yields `none`. -/
def delete_service (env : Env) : Nat → Nat → CompState → CompState × Option Nat × List Nat
  | 0, _, s => (s, none, [])
  | fuel + 1, i, s =>
    let p1 := if env.isColl i then delete_components env fuel i s else (s, [])
    if env.delOk i then
      (removeFromCollections env i p1.1,
       handle_exceptions (fun _ => Except.ok 1) (),
       p1.2 ++ [i])
    else
      (p1.1, handle_exceptions (fun _ => Except.error ()) (), p1.2)
termination_by fuel i s => (fuel, 0)

end

/-- Embedding of the `empty` property of `AWSServiceCollection`. -/
def empty_collection (s : CompState) (x : Nat) : Bool :=
  (s x).length == 0

/-- Loop of `delete_components_with_retry`, with `b` the remaining budget
(`max_attempts + 1` minus the counter `c`). Returns the final state, the
number of `delete_components` invocations, and whether the manual-cleanup
listing was produced. -/
def retry_loop (env : Env) (fuel self : Nat) : Nat → CompState → CompState × Nat × Bool
  | b, s =>
    if (s self).isEmpty then (s, 0, false)
    else
      match b with
      | 0 => (s, 0, true)
      | b + 1 =>
        let s1 := (delete_components env fuel self s).1
        let p := retry_loop env fuel self b s1
        (p.1, p.2.1 + 1, p.2.2)

/-- Embedding of `AWSServiceCollection.delete_components_with_retry`. -/
def delete_components_with_retry (env : Env) (fuel self max_attempts : Nat)
    (s : CompState) : CompState × Nat × Bool :=
  retry_loop env fuel self (max_attempts + 1) s

/-- State after the parent loop has processed one snapshot member `c`:
first the optional recursive `delete_components`, then (for a service) the
wrapped `delete` call. -/
def step_state (env : Env) (fuel c : Nat) (s : CompState) : CompState :=
  let t := if env.isColl c then (delete_components env fuel c s).1 else s
  if env.isServ c then (delete_service env fuel c t).1 else t

/-- Teardown trace emitted while the parent loop processes one member. -/
def step_trace (env : Env) (fuel c : Nat) (s : CompState) : List Nat :=
  let t := if env.isColl c then (delete_components env fuel c s).1 else s
  (if env.isColl c then (delete_components env fuel c s).2 else [])
    ++ (if env.isServ c then (delete_service env fuel c t).2.2 else [])

theorem delete_service_flag_none (env : Env) (fuel i : Nat) (s : CompState) :
    (delete_service env fuel i s).2.1 = none := by
  cases fuel with
  | zero => simp [delete_service]
  | succ f =>
    simp only [delete_service]
    by_cases h : env.delOk i = true <;> simp [h, handle_exceptions]

theorem delete_list_cons_state (env : Env) (fuel self c : Nat) (rest : List Nat)
    (s : CompState) :
    (delete_list env fuel self (c :: rest) s).1 =
      (delete_list env fuel self rest (step_state env fuel c s)).1 := by
  by_cases hs : env.isServ c = true <;> by_cases hc : env.isColl c = true <;>
    simp [delete_list, step_state, hs, hc, delete_service_flag_none, isTruthy]

theorem delete_list_cons_trace (env : Env) (fuel self c : Nat) (rest : List Nat)
    (s : CompState) :
    (delete_list env fuel self (c :: rest) s).2 =
      step_trace env fuel c s
        ++ (delete_list env fuel self rest (step_state env fuel c s)).2 := by
  by_cases hs : env.isServ c = true <;> by_cases hc : env.isColl c = true <;>
    simp [delete_list, step_state, step_trace, hs, hc, delete_service_flag_none,
      isTruthy]

theorem removeStep_sublist (i : Nat) (st : CompState) (y x : Nat) :
    ((removeStep i st y) x).Sublist (st x) := by
  unfold removeStep
  by_cases h : i ∈ st y
  · simp only [h, if_true, setComp]
    by_cases hx : x = y
    · subst hx; simp only [if_pos rfl]; exact List.erase_sublist _ _
    · simp only [if_neg hx]; exact List.Sublist.refl _
  · simp only [h, if_false]; exact List.Sublist.refl _

theorem foldl_removeStep_sublist (i : Nat) :
    ∀ (l : List Nat) (st : CompState) (x : Nat),
      ((l.foldl (removeStep i) st) x).Sublist (st x) := by
  intro l
  induction l with
  | nil => intro st x; exact List.Sublist.refl _
  | cons y l ih =>
    intro st x
    simp only [List.foldl_cons]
    exact (ih (removeStep i st y) x).trans (removeStep_sublist i st y x)

theorem removeFromCollections_sublist (env : Env) (i : Nat) (s : CompState) (x : Nat) :
    ((removeFromCollections env i s) x).Sublist (s x) :=
  foldl_removeStep_sublist i (env.colls i) s x

theorem removeStep_mem (i m : Nat) (hne : m ≠ i) (st : CompState) (y x : Nat)
    (hm : m ∈ st x) : m ∈ (removeStep i st y) x := by
  unfold removeStep
  by_cases h : i ∈ st y
  · simp only [h, if_true, setComp]
    by_cases hx : x = y
    · subst hx
      simp only [if_pos rfl]
      exact (List.mem_erase_of_ne hne).mpr hm
    · simp only [if_neg hx]; exact hm
  · simp only [h, if_false]; exact hm

theorem foldl_removeStep_mem (i m : Nat) (hne : m ≠ i) :
    ∀ (l : List Nat) (st : CompState) (x : Nat),
      m ∈ st x → m ∈ (l.foldl (removeStep i) st) x := by
  intro l
  induction l with
  | nil => intro st x hm; exact hm
  | cons y l ih =>
    intro st x hm
    simp only [List.foldl_cons]
    exact ih (removeStep i st y) x (removeStep_mem i m hne st y x hm)

theorem removeFromCollections_mem (env : Env) (i m : Nat) (hne : m ≠ i)
    (s : CompState) (x : Nat) (hm : m ∈ s x) :
    m ∈ (removeFromCollections env i s) x :=
  foldl_removeStep_mem i m hne (env.colls i) s x hm

theorem foldl_removeStep_not_mem (i self : Nat) :
    ∀ (l : List Nat) (st : CompState), (st self).Nodup →
      (self ∈ l ∨ i ∉ st self) → i ∉ (l.foldl (removeStep i) st) self := by
  intro l
  induction l with
  | nil =>
    intro st _ h
    rcases h with h | h
    · exact absurd h (List.not_mem_nil _)
    · simpa using h
  | cons y l ih =>
    intro st hnd h
    simp only [List.foldl_cons]
    have hnd' : ((removeStep i st y) self).Nodup := by
      unfold removeStep
      by_cases hy : i ∈ st y
      · simp only [hy, if_true, setComp]
        by_cases hs : self = y
        · subst hs; simp only [if_pos rfl]; exact hnd.erase _
        · simp only [if_neg hs]; exact hnd
      · simp only [hy, if_false]; exact hnd
    rcases h with h | h
    · rcases List.mem_cons.mp h with rfl | hmem
      · apply ih _ hnd'
        right
        unfold removeStep
        by_cases hy : i ∈ st self
        · simp only [hy, if_true, setComp, if_pos rfl]
          intro hc
          exact absurd ((hnd.mem_erase_iff).mp hc).1 (by simp)
        · simp only [if_neg hy]
          exact hy
      · exact ih _ hnd' (Or.inl hmem)
    · apply ih _ hnd'
      right
      intro hc
      exact h ((removeStep_sublist i st y self).subset hc)

theorem removeFromCollections_not_mem (env : Env) (i self : Nat) (st : CompState)
    (hnd : (st self).Nodup) (hmem : self ∈ env.colls i) :
    i ∉ (removeFromCollections env i st) self :=
  foldl_removeStep_not_mem i self (env.colls i) st hnd (Or.inl hmem)

theorem shrink_pair (env : Env) : ∀ fuel : Nat,
    (∀ i s x, ((delete_components env fuel i s).1 x).Sublist (s x))
    ∧ (∀ i s x, ((delete_service env fuel i s).1 x).Sublist (s x)) := by
  intro fuel
  induction fuel with
  | zero =>
    constructor
    · intro i s x; simp [delete_components]
    · intro i s x; simp [delete_service]
  | succ f ih =>
    have hstep : ∀ (c : Nat) (s : CompState) (x : Nat),
        ((step_state env f c s) x).Sublist (s x) := by
      intro c s x
      unfold step_state
      by_cases hs : env.isServ c = true
      · simp only [hs, if_true]
        refine (ih.2 c _ x).trans ?_
        by_cases hc : env.isColl c = true
        · simp only [hc, if_true]; exact ih.1 c s x
        · simp only [if_neg hc]; exact List.Sublist.refl _
      · simp only [if_neg hs]
        by_cases hc : env.isColl c = true
        · simp only [hc, if_true]; exact ih.1 c s x
        · simp only [if_neg hc]; exact List.Sublist.refl _
    have hlist : ∀ (l : List Nat) (self : Nat) (s : CompState) (x : Nat),
        ((delete_list env f self l s).1 x).Sublist (s x) := by
      intro l
      induction l with
      | nil => intro self s x; simp [delete_list]
      | cons c rest ihl =>
        intro self s x
        rw [delete_list_cons_state]
        exact (ihl self _ x).trans (hstep c s x)
    constructor
    · intro i s x
      simp only [delete_components]
      exact hlist (s i) i s x
    · intro i s x
      simp only [delete_service]
      by_cases hok : env.delOk i = true
      · simp only [hok, if_true]
        refine (removeFromCollections_sublist env i _ x).trans ?_
        by_cases hc : env.isColl i = true
        · simp only [hc, if_true]; exact ih.1 i s x
        · simp only [if_neg hc]; exact List.Sublist.refl _
      · simp only [if_neg hok]
        by_cases hc : env.isColl i = true
        · simp only [hc, if_true]; exact ih.1 i s x
        · simp only [if_neg hc]; exact List.Sublist.refl _

theorem step_state_sublist (env : Env) (fuel c : Nat) (s : CompState) (x : Nat) :
    ((step_state env fuel c s) x).Sublist (s x) := by
  unfold step_state
  by_cases hs : env.isServ c = true
  · simp only [hs, if_true]
    refine ((shrink_pair env fuel).2 c _ x).trans ?_
    by_cases hc : env.isColl c = true
    · simp only [hc, if_true]; exact (shrink_pair env fuel).1 c s x
    · simp only [if_neg hc]; exact List.Sublist.refl _
  · simp only [if_neg hs]
    by_cases hc : env.isColl c = true
    · simp only [hc, if_true]; exact (shrink_pair env fuel).1 c s x
    · simp only [if_neg hc]; exact List.Sublist.refl _

theorem delete_list_sublist (env : Env) (fuel : Nat) :
    ∀ (l : List Nat) (self : Nat) (s : CompState) (x : Nat),
      ((delete_list env fuel self l s).1 x).Sublist (s x) := by
  intro l
  induction l with
  | nil => intro self s x; simp [delete_list]
  | cons c rest ihl =>
    intro self s x
    rw [delete_list_cons_state]
    exact (ihl self _ x).trans (step_state_sublist env fuel c s x)

theorem preserve_pair (env : Env) : ∀ fuel : Nat,
    (∀ i s x m, env.delOk m = false → m ∈ s x →
       m ∈ (delete_components env fuel i s).1 x)
    ∧ (∀ i s x m, env.delOk m = false → m ∈ s x →
       m ∈ (delete_service env fuel i s).1 x) := by
  intro fuel
  induction fuel with
  | zero =>
    constructor
    · intro i s x m _ hm; simpa [delete_components] using hm
    · intro i s x m _ hm; simpa [delete_service] using hm
  | succ f ih =>
    have hstep : ∀ (c : Nat) (s : CompState) (x m : Nat),
        env.delOk m = false → m ∈ s x → m ∈ (step_state env f c s) x := by
      intro c s x m hok hm
      unfold step_state
      by_cases hs : env.isServ c = true
      · simp only [hs, if_true]
        apply ih.2 c _ x m hok
        by_cases hc : env.isColl c = true
        · simp only [hc, if_true]; exact ih.1 c s x m hok hm
        · simp only [if_neg hc]; exact hm
      · simp only [if_neg hs]
        by_cases hc : env.isColl c = true
        · simp only [hc, if_true]; exact ih.1 c s x m hok hm
        · simp only [if_neg hc]; exact hm
    have hlist : ∀ (l : List Nat) (self : Nat) (s : CompState) (x m : Nat),
        env.delOk m = false → m ∈ s x → m ∈ (delete_list env f self l s).1 x := by
      intro l
      induction l with
      | nil => intro self s x m _ hm; simpa [delete_list] using hm
      | cons c rest ihl =>
        intro self s x m hok hm
        rw [delete_list_cons_state]
        exact ihl self _ x m hok (hstep c s x m hok hm)
    constructor
    · intro i s x m hok hm
      simp only [delete_components]
      exact hlist (s i) i s x m hok hm
    · intro i s x m hok hm
      simp only [delete_service]
      by_cases hki : env.delOk i = true
      · simp only [hki, if_true]
        have hne : m ≠ i := by
          intro h
          rw [h] at hok
          rw [hok] at hki
          exact Bool.false_ne_true hki
        apply removeFromCollections_mem env i m hne
        by_cases hc : env.isColl i = true
        · simp only [hc, if_true]; exact ih.1 i s x m hok hm
        · simp only [if_neg hc]; exact hm
      · simp only [if_neg hki]
        by_cases hc : env.isColl i = true
        · simp only [hc, if_true]; exact ih.1 i s x m hok hm
        · simp only [if_neg hc]; exact hm

theorem delete_service_removes (env : Env) (f i self : Nat) (s : CompState)
    (hok : env.delOk i = true) (hcolls : self ∈ env.colls i)
    (hnd : ∀ x, (s x).Nodup) :
    i ∉ (delete_service env (f + 1) i s).1 self := by
  simp only [delete_service, hok, if_true]
  apply removeFromCollections_not_mem env i self _ ?_ hcolls
  by_cases hc : env.isColl i = true
  · simp only [hc, if_true]
    exact (hnd self).sublist ((shrink_pair env f).1 i s self)
  · simp only [if_neg hc]
    exact hnd self

theorem step_state_removes (env : Env) (f c self : Nat) (s : CompState)
    (hserv : env.isServ c = true) (hok : env.delOk c = true)
    (hcolls : self ∈ env.colls c) (hnd : ∀ x, (s x).Nodup) :
    c ∉ (step_state env (f + 1) c s) self := by
  unfold step_state
  simp only [hserv, if_true]
  apply delete_service_removes env f c self _ hok hcolls
  intro x
  by_cases hc : env.isColl c = true
  · simp only [hc, if_true]
    exact (hnd x).sublist ((shrink_pair env (f + 1)).1 c s x)
  · simp only [if_neg hc]
    exact hnd x

theorem delete_list_removes (env : Env) (f : Nat) :
    ∀ (l : List Nat) (self : Nat) (s : CompState) (m : Nat),
      m ∈ l → env.isServ m = true → env.delOk m = true → self ∈ env.colls m →
      (∀ x, (s x).Nodup) → m ∉ (delete_list env (f + 1) self l s).1 self := by
  intro l
  induction l with
  | nil => intro self s m hm _ _ _ _; exact absurd hm (List.not_mem_nil m)
  | cons c rest ihl =>
    intro self s m hm hserv hok hcolls hnd
    rw [delete_list_cons_state]
    have hnd1 : ∀ x, ((step_state env (f + 1) c s) x).Nodup :=
      fun x => (hnd x).sublist (step_state_sublist env (f + 1) c s x)
    by_cases hcm : c = m
    · subst hcm
      have hout : c ∉ (step_state env (f + 1) c s) self :=
        step_state_removes env f c self s hserv hok hcolls hnd
      intro hmem
      exact hout
        ((delete_list_sublist env (f + 1) rest self _ self).subset hmem)
    · have hm' : m ∈ rest := by
        rcases List.mem_cons.mp hm with h | h
        · exact absurd h.symm hcm
        · exact h
      exact ihl self _ m hm' hserv hok hcolls hnd1

/-- Main correctness theorem for `delete_components` (claim C3): under the
bidirectional back-reference invariant maintained by `add_component` and
`AWSService.create`, with duplicate-free component lists and every direct
member a concrete service, one pass of `delete_components` (which iterates
over the snapshot `s self` taken on entry) leaves a member in `self`'s
components list if and only if that member's external deletion did not
succeed; if every member's deletion succeeds the list is empty and the
`empty` property is true. -/
theorem delete_components_deletes_exactly_failures (env : Env) (fuel self : Nat)
    (s : CompState)
    (hbi : ∀ x m, m ∈ s x → x ∈ env.colls m)
    (hnd : ∀ x, (s x).Nodup)
    (hserv : ∀ m, m ∈ s self → env.isServ m = true)
    (hfuel : 2 ≤ fuel) :
    (∀ m, m ∈ (delete_components env fuel self s).1 self ↔
       (m ∈ s self ∧ env.delOk m = false))
    ∧ ((∀ m, m ∈ s self → env.delOk m = true) →
       empty_collection (delete_components env fuel self s).1 self = true) := by
  obtain ⟨f, rfl⟩ : ∃ f, fuel = f + 2 := ⟨fuel - 2, by omega⟩
  have hmain : ∀ m, m ∈ (delete_components env (f + 2) self s).1 self ↔
      (m ∈ s self ∧ env.delOk m = false) := by
    intro m
    constructor
    · intro hmem
      have hunfold : (delete_components env (f + 2) self s).1
          = (delete_list env (f + 1) self (s self) s).1 := by
        simp [delete_components]
      rw [hunfold] at hmem
      have hin : m ∈ s self :=
        (delete_list_sublist env (f + 1) (s self) self s self).subset hmem
      refine ⟨hin, ?_⟩
      by_cases hok : env.delOk m = true
      · exact absurd hmem
          (delete_list_removes env f (s self) self s m hin (hserv m hin) hok
            (hbi self m hin) hnd)
      · simpa using hok
    · intro ⟨hin, hok⟩
      exact (preserve_pair env (f + 2)).1 self s self m hok hin
  refine ⟨hmain, ?_⟩
  intro hall
  have : (delete_components env (f + 2) self s).1 self = [] := by
    rw [List.eq_nil_iff_forall_not_mem]
    intro m hmem
    obtain ⟨hin, hok⟩ := (hmain m).mp hmem
    rw [hall m hin] at hok
    simp at hok
  simp [empty_collection, this]

theorem retry_loop_count_le (env : Env) (fuel self : Nat) :
    ∀ (b : Nat) (s : CompState), (retry_loop env fuel self b s).2.1 ≤ b := by
  intro b
  induction b with
  | zero =>
    intro s
    rw [retry_loop.eq_def]
    by_cases h : (s self).isEmpty = true <;> simp [h]
  | succ b ih =>
    intro s
    rw [retry_loop.eq_def]
    by_cases h : (s self).isEmpty = true
    · simp [h]
    · have hh := ih (delete_components env fuel self s).1
      simp [h]
      omega

theorem retry_loop_flag_or_empty (env : Env) (fuel self : Nat) :
    ∀ (b : Nat) (s : CompState),
      (retry_loop env fuel self b s).2.2 = true
      ∨ (retry_loop env fuel self b s).1 self = [] := by
  intro b
  induction b with
  | zero =>
    intro s
    rw [retry_loop.eq_def]
    by_cases h : (s self).isEmpty = true
    · right
      simp only [h, if_true]
      simpa using h
    · left
      simp [h]
  | succ b ih =>
    intro s
    rw [retry_loop.eq_def]
    by_cases h : (s self).isEmpty = true
    · right
      simp only [h, if_true]
      simpa using h
    · simpa [h] using ih (delete_components env fuel self s).1

theorem retry_loop_preserve (env : Env) (fuel self : Nat) :
    ∀ (b : Nat) (s : CompState) (m : Nat), env.delOk m = false → m ∈ s self →
      m ∈ (retry_loop env fuel self b s).1 self := by
  intro b
  induction b with
  | zero =>
    intro s m hok hm
    rw [retry_loop.eq_def]
    by_cases h : (s self).isEmpty = true <;> simpa [h] using hm
  | succ b ih =>
    intro s m hok hm
    rw [retry_loop.eq_def]
    by_cases h : (s self).isEmpty = true
    · simpa [h] using hm
    · simp only [h, Bool.false_eq_true, if_false]
      simpa using ih _ m hok ((preserve_pair env fuel).1 self s self m hok hm)

theorem retry_loop_empty (env : Env) (fuel self : Nat) (b : Nat) (s : CompState)
    (h : s self = []) : retry_loop env fuel self b s = (s, 0, false) := by
  rw [retry_loop.eq_def]
  simp [h]

/-- Bounded-retry deletion (claim C4): `delete_components_with_retry` always
terminates (it is a total function), invokes `delete_components` at most
`max_attempts + 1` times and only while the collection is non-empty (zero
invocations on an empty collection), produces the manual-cleanup listing
whenever the collection is still non-empty at the end, and a member whose
external deletion keeps failing is still in the list afterwards. -/
theorem delete_components_with_retry_correct (env : Env)
    (fuel self max_attempts : Nat) (s : CompState) :
    (delete_components_with_retry env fuel self max_attempts s).2.1 ≤ max_attempts + 1
    ∧ ((delete_components_with_retry env fuel self max_attempts s).1 self ≠ [] →
        (delete_components_with_retry env fuel self max_attempts s).2.2 = true)
    ∧ (∀ m, env.delOk m = false → m ∈ s self →
        m ∈ (delete_components_with_retry env fuel self max_attempts s).1 self)
    ∧ (s self = [] →
        (delete_components_with_retry env fuel self max_attempts s).2.1 = 0) := by
  refine ⟨retry_loop_count_le env fuel self _ s, ?_, ?_, ?_⟩
  · intro hne
    exact (retry_loop_flag_or_empty env fuel self _ s).resolve_right hne
  · intro m hok hm
    exact retry_loop_preserve env fuel self _ s m hok hm
  · intro h
    rw [delete_components_with_retry, retry_loop_empty env fuel self _ s h]

theorem delete_service_trace (env : Env) (f i : Nat) (s : CompState)
    (hok : env.delOk i = true) :
    (delete_service env (f + 1) i s).2.2 =
      (if env.isColl i then delete_components env f i s else (s, [])).2 ++ [i] := by
  simp only [delete_service, hok, if_true]

theorem delete_list_trace_mem (env : Env) (f : Nat) :
    ∀ (l : List Nat) (self : Nat) (s : CompState) (m : Nat),
      m ∈ l → env.isServ m = true → env.delOk m = true →
      m ∈ (delete_list env (f + 1) self l s).2 := by
  intro l
  induction l with
  | nil => intro self s m hm _ _; exact absurd hm (List.not_mem_nil m)
  | cons c rest ihl =>
    intro self s m hm hserv hok
    rw [delete_list_cons_trace]
    rcases List.mem_cons.mp hm with rfl | hmr
    · apply List.mem_append.mpr
      left
      unfold step_trace
      simp only [hserv, if_true]
      apply List.mem_append.mpr
      right
      rw [delete_service_trace env f m _ hok]
      simp
    · apply List.mem_append.mpr
      right
      exact ihl self _ m hmr hserv hok

/-- Recursive deletion order (claim C5): when a member that is itself a
collection (e.g. a `Subnet` or `VPC` nested in a parent) is deleted, the
teardown of each of its own successfully-deleted service components appears
strictly before its own external teardown call, which is the final event of
its deletion trace. -/
theorem nested_components_torn_down_before_parent (env : Env) (fuel i m : Nat)
    (s : CompState)
    (hColl : env.isColl i = true) (hOk : env.delOk i = true)
    (hm : m ∈ s i) (hmServ : env.isServ m = true) (hmOk : env.delOk m = true)
    (hfuel : 3 ≤ fuel) :
    ∃ T, (delete_service env fuel i s).2.2 = T ++ [i] ∧ m ∈ T := by
  obtain ⟨g, rfl⟩ : ∃ g, fuel = g + 3 := ⟨fuel - 3, by omega⟩
  rw [delete_service_trace env (g + 2) i s hOk]
  refine ⟨(if env.isColl i then delete_components env (g + 2) i s else (s, [])).2,
    rfl, ?_⟩
  simp only [hColl, if_true]
  have hu : delete_components env (g + 2) i s = delete_list env (g + 1) i (s i) s := by
    simp [delete_components]
  rw [hu]
  exact delete_list_trace_mem env g (s i) i s m hm hmServ hmOk

/-- Decorator behaviour (claim C9): a `handle_exceptions`-wrapped operation
returns `None` whether the body succeeds or raises, so the success flag `1`
of `AWSService.create` / `AWSService.delete` never reaches a caller; in
particular a wrapped `delete` yields a falsy value, so the branch of
`delete_components` that removes a member when `deletion_successful` is
truthy never executes. -/
theorem handle_exceptions_returns_none :
    (∀ (α β : Type) (f : α → Except Unit β) (a : α), handle_exceptions f a = none)
    ∧ handle_exceptions (fun _ : Unit => (Except.ok 1 : Except Unit Nat)) () = none
    ∧ (∀ (env : Env) (fuel i : Nat) (s : CompState),
        (delete_service env fuel i s).2.1 = none
        ∧ isTruthy (delete_service env fuel i s).2.1 = false) := by
  refine ⟨?_, rfl, ?_⟩
  · intro α β f a
    unfold handle_exceptions
    cases f a <;> rfl
  · intro env fuel i s
    refine ⟨delete_service_flag_none env fuel i s, ?_⟩
    rw [delete_service_flag_none]
    rfl

/-- Two-sided link state for `add_component`: unlike during deletion, adding
mutates both the `components` lists and the `collections` back-reference
lists. -/
structure LinkState where
  components : Nat → List Nat
  collections : Nat → List Nat

/-- Embedding of `AWSServiceCollection.add_component`: append the component
to `self`'s components unless already present, then append `self` to the
component's collections unless already present. -/
def add_component (s : LinkState) (self comp : Nat) : LinkState :=
  let cs := if comp ∈ s.components self then s.components self
            else s.components self ++ [comp]
  let components1 := fun x => if x = self then cs else s.components x
  let ls := if self ∈ s.collections comp then s.collections comp
            else s.collections comp ++ [self]
  let collections1 := fun y => if y = comp then ls else s.collections y
  ⟨components1, collections1⟩

theorem add_component_components_self (s : LinkState) (self comp : Nat) :
    (add_component s self comp).components self =
      (if comp ∈ s.components self then s.components self
       else s.components self ++ [comp]) := by
  simp [add_component]

theorem add_component_collections_comp (s : LinkState) (self comp : Nat) :
    (add_component s self comp).collections comp =
      (if self ∈ s.collections comp then s.collections comp
       else s.collections comp ++ [self]) := by
  simp [add_component]

/-- Idempotent add with back-reference (claim C6): adding the same resource
twice leaves the member count unchanged, and after one `add_component` the
resource is in the collection's components list and the collection is in the
resource's collections list — exactly once, provided the lists held no
duplicate beforehand (which `add_component` itself guarantees). -/
theorem add_component_idempotent_backref (s : LinkState) (self comp : Nat) :
    (((add_component (add_component s self comp) self comp).components self).length
       = ((add_component s self comp).components self).length)
    ∧ comp ∈ (add_component s self comp).components self
    ∧ self ∈ (add_component s self comp).collections comp
    ∧ ((s.components self).count comp ≤ 1 →
        ((add_component s self comp).components self).count comp = 1)
    ∧ ((s.collections comp).count self ≤ 1 →
        ((add_component s self comp).collections comp).count self = 1) := by
  have hmemc : comp ∈ (add_component s self comp).components self := by
    rw [add_component_components_self]
    by_cases h : comp ∈ s.components self
    · simp [h]
    · simp [h]
  have hmeml : self ∈ (add_component s self comp).collections comp := by
    rw [add_component_collections_comp]
    by_cases h : self ∈ s.collections comp
    · simp [h]
    · simp [h]
  refine ⟨?_, hmemc, hmeml, ?_, ?_⟩
  · rw [add_component_components_self (add_component s self comp) self comp]
    simp [hmemc]
  · intro hle
    rw [add_component_components_self]
    by_cases h : comp ∈ s.components self
    · simp only [h, if_true]
      have h1 : 1 ≤ (s.components self).count comp := List.one_le_count_iff.mpr h
      omega
    · simp only [h, if_false]
      rw [List.count_append]
      rw [List.count_eq_zero.mpr h]
      simp
  · intro hle
    rw [add_component_collections_comp]
    by_cases h : self ∈ s.collections comp
    · simp only [h, if_true]
      have h1 : 1 ≤ (s.collections comp).count self := List.one_le_count_iff.mpr h
      omega
    · simp only [h, if_false]
      rw [List.count_append]
      rw [List.count_eq_zero.mpr h]
      simp

/-- Equational description of `contains_resource` (claim C7): the call
raises exactly when neither a truthy name nor a truthy id is supplied, and
otherwise returns whether some member matches by name or id (the loop
returns `True` on the first such member). -/
theorem contains_resource_correct (comps : List Comp) (name id : Option String) :
    contains_resource comps name id =
      (if truthyStr name = false ∧ truthyStr id = false then
        Except.error "You must specify either ID or name of the resource!"
      else
        Except.ok (comps.any (matchesComp name id))) := by
  unfold contains_resource
  by_cases h1 : truthyStr name = false
  · by_cases h2 : truthyStr id = false
    · simp [h1, h2]
    · simp only [Bool.not_eq_false] at h2
      simp [h1, h2, contains_scan_eq_any]
  · simp only [Bool.not_eq_false] at h1
    simp [h1, contains_scan_eq_any]

/-- Commands recognised by the interactive session loop in
`build_cloud_infrastructure`, tested in source order via `str.lower()`. -/
inductive Command where
  | upload
  | delete
  | exit
  | unknown
deriving DecidableEq, Repr

/-- Model of Python `str.lower()` (ASCII case folding, character by
character), written over the character list so it is kernel-computable. -/
def toLowerStr (s : String) : String :=
  String.mk (s.data.map Char.toLower)

/-- Embedding of the branch dispatch of the interactive loop: the input line
is lower-cased and compared against the three literal commands. -/
def parse_command (s : String) : Command :=
  if toLowerStr s = "delete" then Command.delete
  else if toLowerStr s = "exit" then Command.exit
  else if toLowerStr s = "upload" then Command.upload
  else Command.unknown

/-- Observable actions of one pass of the interactive loop. -/
inductive LoopEvent where
  | deletedAll
  | exitListing
  | uploadRun
  | unknownCommand (line : String)
deriving DecidableEq, Repr

/-- Embedding of the interactive `while` loop of
`build_cloud_infrastructure` on a finite script of input lines: `delete`
and `exit` terminate the session, `upload` runs the upload branch and
prompts again, and any other line prints the unknown-command message and
prompts again. -/
def command_loop : List String → List LoopEvent
  | [] => []
  | line :: rest =>
    match parse_command line with
    | Command.delete => [LoopEvent.deletedAll]
    | Command.exit => [LoopEvent.exitListing]
    | Command.upload => LoopEvent.uploadRun :: command_loop rest
    | Command.unknown => LoopEvent.unknownCommand line :: command_loop rest

/-- Interactive command recognition (claim C8): the loop recognises exactly
the literal commands `upload`, `delete` and `exit`, case-insensitively (any
casing whose lower-casing equals the literal triggers the branch), and on
every other input line it emits the unknown-command message and keeps
prompting (the loop continues with the remaining input). -/
theorem command_loop_recognizes (s : String) :
    (parse_command s = Command.delete ↔ toLowerStr s = "delete")
    ∧ (parse_command s = Command.exit ↔ toLowerStr s = "exit")
    ∧ (parse_command s = Command.upload ↔ toLowerStr s = "upload")
    ∧ (parse_command s = Command.unknown ↔
        (toLowerStr s ≠ "delete" ∧ toLowerStr s ≠ "exit" ∧ toLowerStr s ≠ "upload"))
    ∧ (∀ rest, parse_command s = Command.unknown →
        command_loop (s :: rest) = LoopEvent.unknownCommand s :: command_loop rest) := by
  refine ⟨?_, ?_, ?_, ?_, ?_⟩
  · unfold parse_command
    by_cases h1 : toLowerStr s = "delete"
    · simp [h1]
    · by_cases h2 : toLowerStr s = "exit"
      · simp [h1, h2]
      · by_cases h3 : toLowerStr s = "upload" <;> simp [h1, h2, h3]
  · unfold parse_command
    by_cases h1 : toLowerStr s = "delete"
    · simp [h1]
    · by_cases h2 : toLowerStr s = "exit"
      · simp [h1, h2]
      · by_cases h3 : toLowerStr s = "upload" <;> simp [h1, h2, h3]
  · unfold parse_command
    by_cases h1 : toLowerStr s = "delete"
    · simp [h1]
    · by_cases h2 : toLowerStr s = "exit"
      · simp [h1, h2]
      · by_cases h3 : toLowerStr s = "upload" <;> simp [h1, h2, h3]
  · unfold parse_command
    by_cases h1 : toLowerStr s = "delete"
    · simp [h1]
    · by_cases h2 : toLowerStr s = "exit"
      · simp [h1, h2]
      · by_cases h3 : toLowerStr s = "upload" <;> simp [h1, h2, h3]
  · intro rest h
    simp [command_loop, h]

/-- Possible outcomes of `create_lambda_function_with_retry`:
`unboundLocalError` models Python raising `UnboundLocalError` at the final
`return lambda_func_obj` when the loop body never assigned the variable,
`returnedNone` models the early `return` (yielding `None`) when the attempt
bound is exhausted, and `returnedFunc k` models returning the object created
on attempt `k`. -/
inductive LambdaRetryResult where
  | unboundLocalError
  | returnedNone
  | returnedFunc (k : Nat)
deriving DecidableEq, Repr

/-- Result of `collection.contains_resource(name=fn)` as used by the retry
loop (for a non-empty function name the error branch is unreachable). -/
def contains_check (coll : List Comp) (fn : String) : Bool :=
  match contains_resource coll (some fn) none with
  | Except.ok b => b
  | Except.error _ => false

/-- Loop of `main.create_lambda_function_with_retry`: `remaining` is
`max_attempts` minus the counter `c`; `assigned` is the value of the local
variable `lambda_func_obj` (`none` while unassigned).  Each loop-body pass
constructs an `S3LambdaFunction`; its decorated `create` swallows failures,
so the object is assigned in every pass, and the collection gains a member
named `fn` exactly when the creation attempt succeeds (`ok c`). -/
def lambda_retry_loop (ok : Nat → Bool) (fn : String) :
    Nat → Nat → Option Nat → List Comp → LambdaRetryResult
  | remaining, c, assigned, coll =>
    if contains_check coll fn then
      match assigned with
      | none => LambdaRetryResult.unboundLocalError
      | some k => LambdaRetryResult.returnedFunc k
    else
      match remaining with
      | 0 => LambdaRetryResult.returnedNone
      | r + 1 =>
        let coll1 := if ok c then coll ++ [⟨some fn, some (toString c)⟩] else coll
        lambda_retry_loop ok fn r (c + 1) (some c) coll1

/-- Embedding of `main.create_lambda_function_with_retry`. -/
def create_lambda_function_with_retry (ok : Nat → Bool) (fn : String)
    (max_attempts : Nat) (coll : List Comp) : LambdaRetryResult :=
  lambda_retry_loop ok fn max_attempts 0 none coll

theorem lambda_retry_loop_none (ok : Nat → Bool) (fn : String)
    (hok : ∀ k, ok k = false) :
    ∀ (r c : Nat) (a : Option Nat) (coll : List Comp),
      contains_check coll fn = false →
      lambda_retry_loop ok fn r c a coll = LambdaRetryResult.returnedNone := by
  intro r
  induction r with
  | zero =>
    intro c a coll h
    rw [lambda_retry_loop.eq_def]
    simp [h]
  | succ r ih =>
    intro c a coll h
    rw [lambda_retry_loop.eq_def]
    simp only [h, Bool.false_eq_true, if_false]
    simp only [hok c, Bool.false_eq_true, if_false]
    exact ih (c + 1) (some c) coll h

/-- Latent bug in `create_lambda_function_with_retry` (claim C10): when the
collection already contains a resource with the given function name the
`while` loop body never runs, so the final `return lambda_func_obj` reads an
unassigned local and raises `UnboundLocalError`; when every creation attempt
fails, the attempt bound is exhausted and the early `return` yields `None`. -/
theorem create_lambda_function_with_retry_correct (ok : Nat → Bool) (fn : String)
    (max_attempts : Nat) (coll : List Comp) :
    (contains_check coll fn = true →
      create_lambda_function_with_retry ok fn max_attempts coll
        = LambdaRetryResult.unboundLocalError)
    ∧ (contains_check coll fn = false → (∀ k, ok k = false) →
      create_lambda_function_with_retry ok fn max_attempts coll
        = LambdaRetryResult.returnedNone)
    ∧ (fn ≠ "" → contains_check coll fn = coll.any (matchesComp (some fn) none)) := by
  refine ⟨?_, ?_, ?_⟩
  · intro h
    unfold create_lambda_function_with_retry
    rw [lambda_retry_loop.eq_def]
    simp [h]
  · intro h hok
    exact lambda_retry_loop_none ok fn hok max_attempts 0 none coll h
  · intro hfn
    unfold contains_check contains_resource
    have ht : truthyStr (some fn) = true := by
      simp [truthyStr, hfn]
    simp [ht, contains_scan_eq_any]

/-- Example mapping of the zone-count heuristic with the value the spec
lists for `(1,10)` corrected from `1` to `2`: `find_optimal_number_of_AZs`
returns `2` for every input with fewer than 4 subnets (claim C1, amended). -/
theorem find_optimal_number_of_AZs_examples :
    find_optimal_number_of_AZs 2 2 = 2 ∧ find_optimal_number_of_AZs 10 2 = 2
    ∧ find_optimal_number_of_AZs 4 10 = 2 ∧ find_optimal_number_of_AZs 6 10 = 3
    ∧ find_optimal_number_of_AZs 1 10 = 2 ∧ find_optimal_number_of_AZs 10 10 = 5
    ∧ find_optimal_number_of_AZs 3 10 = 2 ∧ find_optimal_number_of_AZs 13 10 = 6 := by
  decide

/-- Counterexample to claim C1 as stated: the spec's example list claims
`(1,10) → 1`, but the code returns `2` for any `num_subnets < 4`, so the
claimed conjunction of example mappings is false. -/
theorem find_optimal_number_of_AZs_example_list_false :
    ¬ (find_optimal_number_of_AZs 2 2 = 2 ∧ find_optimal_number_of_AZs 10 2 = 2
       ∧ find_optimal_number_of_AZs 4 10 = 2 ∧ find_optimal_number_of_AZs 6 10 = 3
       ∧ find_optimal_number_of_AZs 1 10 = 1 ∧ find_optimal_number_of_AZs 10 10 = 5
       ∧ find_optimal_number_of_AZs 3 10 = 2 ∧ find_optimal_number_of_AZs 13 10 = 6) := by
  decide

/-- Zone-count heuristic formula (claim C2): for every pair of integers the
code's `find_optimal_number_of_AZs` returns `2` when `num_subnets < 4` and
`min(num_azs, num_subnets // 2)` otherwise, i.e. it agrees with the spec's
formula `zone_count_spec` everywhere. -/
theorem find_optimal_number_of_AZs_eq_spec (num_subnets num_azs : Int) :
    find_optimal_number_of_AZs num_subnets num_azs
      = zone_count_spec num_subnets num_azs := by
  unfold find_optimal_number_of_AZs zone_count_spec
  by_cases h : num_subnets ≥ 4
  · rw [if_pos h, if_neg (by omega)]
  · rw [if_neg h, if_pos (by omega)]

/-- Concrete environment for evaluating the deletion model: two plain
services `1` and `2` inside collection `0`; the teardown of `2` fails. -/
def envW : Env where
  isColl := fun _ => false
  isServ := fun _ => true
  delOk := fun n => n != 2
  colls := fun n => if n = 0 then [] else [0]

/-- Concrete initial state: collection `0` holds members `1` and `2`. -/
def sW : CompState := fun n => if n = 0 then [1, 2] else []

theorem delete_components_deletes_exactly_failures_witness :
    2 ∈ (delete_components envW 2 0 sW).1 0 := by
  refine ((delete_components_deletes_exactly_failures envW 2 0 sW ?_ ?_ ?_
      (by omega)).1 2).mpr ⟨?_, ?_⟩
  · intro x m hm
    by_cases hx : x = 0
    · subst hx
      simp only [sW, if_pos rfl] at hm
      fin_cases hm <;> decide
    · simp [sW, hx] at hm
  · intro x
    by_cases hx : x = 0 <;> simp [sW, hx]
  · intro m _
    rfl
  · decide
  · decide

theorem delete_components_with_retry_correct_witness :
    2 ∈ (delete_components_with_retry envW 2 0 1 sW).1 0 :=
  (delete_components_with_retry_correct envW 2 0 1 sW).2.2.1 2 (by decide) (by decide)

/-- Concrete environment with a nested collection: object `0` is both a
collection and a service containing the plain service `1`; all teardowns
succeed. -/
def envW2 : Env where
  isColl := fun n => n == 0
  isServ := fun _ => true
  delOk := fun _ => true
  colls := fun n => if n = 0 then [] else [0]

/-- Concrete initial state for the nested example. -/
def sW2 : CompState := fun n => if n = 0 then [1] else []

theorem nested_components_torn_down_before_parent_witness :
    ∃ T, (delete_service envW2 3 0 sW2).2.2 = T ++ [0] ∧ 1 ∈ T :=
  nested_components_torn_down_before_parent envW2 3 0 1 sW2 (by decide) (by decide)
    (by decide) (by decide) (by decide) (by omega)

/-- Concrete empty link state for the `add_component` witness. -/
def lsW : LinkState := ⟨fun _ => [], fun _ => []⟩

theorem add_component_idempotent_backref_witness :
    ((add_component lsW 0 1).components 0).count 1 = 1 :=
  (add_component_idempotent_backref lsW 0 1).2.2.2.1 (by decide)

theorem command_loop_recognizes_witness :
    command_loop ["foo"] = [LoopEvent.unknownCommand "foo"] := by
  have h := (command_loop_recognizes "foo").2.2.2.2 [] (by decide)
  simpa [command_loop] using h

theorem create_lambda_function_with_retry_correct_witness :
    create_lambda_function_with_retry (fun _ => false) "s3-to-glue-lambda" 2 []
      = LambdaRetryResult.returnedNone :=
  (create_lambda_function_with_retry_correct (fun _ => false)
      "s3-to-glue-lambda" 2 []).2.1 (by decide) (fun _ => rfl)
